import Mathlib

/-!
Verification of the `types/version` package of Diaszano/gotterns (SemVer 2.0.0
parsing, rendering and comparison).

Strings are modelled as `List Char`; Go `uint64` values as `Nat` (the parser
enforces the bound `< 2 ^ 64` exactly where `strconv.ParseUint(_, 10, 64)`
does, and no arithmetic after that point can overflow, so no wrap-around
modelling is needed).  Go's byte-wise string comparison coincides with
code-point order on `Char` lists because UTF-8 byte order agrees with scalar
value order.

The anchored regular expression

  `^(0|[1-9]\d*)\.(0|[1-9]\d*)\.(0|[1-9]\d*)`
  `(?:-((?:0|[1-9]\d*|\d*[a-zA-Z-][0-9a-zA-Z-]*)`
  `(?:\.(?:0|[1-9]\d*|\d*[a-zA-Z-][0-9a-zA-Z-]*))*))?`
  `(?:\+([0-9a-zA-Z-]+(?:\.[0-9a-zA-Z-]+)*))?$`

is embedded as the deterministic matcher `reFindSubmatch`: in any anchored
match, each numeric component is the maximal digit run before the following
separator (the separator is never a digit), the prerelease capture extends
exactly to the first `+` or the end of the string (its character class
excludes `+`), and the build capture is the remainder, so the regex
decomposes every matching subject uniquely and the matcher below recognises
exactly the regex language with exactly the regex's five captures.
-/

/-- Version mirrors the Go struct `Version` (`Major`, `Minor`, `Patch` of type
`uint64`, `PreRelease` and `Build` strings). -/
structure Version where
  major : Nat
  minor : Nat
  patch : Nat
  preRelease : List Char
  build : List Char
deriving DecidableEq, Repr

/-- Version.zero is Go's zero value `Version{}`. -/
def Version.zero : Version :=
  { major := 0, minor := 0, patch := 0, preRelease := [], build := [] }

/-- VersionError models the error values `TryParse` can return:
`errEmpty` is `ErrEmpty`, `errInvalidFormat` is `ErrInvalidFormat`, and
`errNumeric` stands for `errors.Join(ErrBase, err)` with `err` a
`strconv.ParseUint` failure — a value distinct from both sentinels
(neither sentinel occurs in its wrap tree). -/
inductive VersionError where
  | errEmpty
  | errInvalidFormat
  | errNumeric
deriving DecidableEq, Repr

/-- isDigitChar is the regex class `\d` = `[0-9]` (code points 48 to 57). -/
def isDigitChar (c : Char) : Bool :=
  decide (48 ≤ c.toNat ∧ c.toNat ≤ 57)

/-- isAlnumHyphen is the regex class `[0-9a-zA-Z-]`. -/
def isAlnumHyphen (c : Char) : Bool :=
  isDigitChar c || decide (97 ≤ c.toNat ∧ c.toNat ≤ 122)
    || decide (65 ≤ c.toNat ∧ c.toNat ≤ 90) || c = '-'

/-- matchNumIdent is the regex alternation `0|[1-9]\d*`: a single digit, or a
digit run whose first digit is `1`-`9` (code points 49 to 57). -/
def matchNumIdent (s : List Char) : Bool :=
  match s with
  | [] => false
  | c :: rest =>
    if rest = [] then isDigitChar c
    else decide (49 ≤ c.toNat ∧ c.toNat ≤ 57) && rest.all isDigitChar

/-- matchPreIdent is the prerelease identifier alternation
`0|[1-9]\d*|\d*[a-zA-Z-][0-9a-zA-Z-]*`.  The third alternative denotes
exactly the non-empty strings over `[0-9a-zA-Z-]` containing at least one
non-digit (split such a string at its first non-digit character). -/
def matchPreIdent (seg : List Char) : Bool :=
  matchNumIdent seg || (seg.all isAlnumHyphen && seg.any (fun c => !isDigitChar c))

/-- matchPre checks the full prerelease capture: dot-separated prerelease
identifiers, no empty segment (an empty segment fails `matchPreIdent`). -/
def matchPre (s : List Char) : Bool :=
  (s.splitOn '.').all matchPreIdent

/-- matchBuild checks the full build capture
`[0-9a-zA-Z-]+(?:\.[0-9a-zA-Z-]+)*`: dot-separated non-empty runs over
`[0-9a-zA-Z-]`. -/
def matchBuild (s : List Char) : Bool :=
  (s.splitOn '.').all (fun seg => !seg.isEmpty && seg.all isAlnumHyphen)

/-- parseSuffix matches the optional tail `(?:-(PRE))?(?:\+(BUILD))?$` of the
regex against everything after the patch digits, returning the two captures
(`[]` for an absent group, as Go returns `""` for an unmatched group).  The
prerelease capture runs to the first `+` or the end of the subject, exactly
as in any anchored match of the regex. -/
def parseSuffix (r : List Char) : Option (List Char × List Char) :=
  match r with
  | [] => some ([], [])
  | c :: rest =>
    if c = '-' then
      if matchPre (rest.takeWhile (fun x => x != '+')) then
        match rest.dropWhile (fun x => x != '+') with
        | [] => some (rest.takeWhile (fun x => x != '+'), [])
        | c2 :: b =>
          if c2 = '+' then
            (if matchBuild b then some (rest.takeWhile (fun x => x != '+'), b) else none)
          else none
      else none
    else if c = '+' then
      if matchBuild rest then some ([], rest) else none
    else none

/-- reFindSubmatch models `re.FindStringSubmatch` (and a `none` result also
models `re.MatchString` returning `false`): it returns the five captures of
the anchored SemVer regex, or `none` when the subject does not match.  Each
of the three numeric components is the maximal leading digit run (the regex
forces this: the character after each component is `.`, `-`, `+` or the end,
never a digit). -/
def reFindSubmatch (s : List Char) :
    Option (List Char × List Char × List Char × List Char × List Char) :=
  match s.dropWhile isDigitChar with
  | c1 :: r2 =>
    if c1 = '.' then
      match r2.dropWhile isDigitChar with
      | c2 :: r4 =>
        if c2 = '.' then
          if matchNumIdent (s.takeWhile isDigitChar)
              && matchNumIdent (r2.takeWhile isDigitChar)
              && matchNumIdent (r4.takeWhile isDigitChar) then
            match parseSuffix (r4.dropWhile isDigitChar) with
            | some (pre, bld) =>
              some (s.takeWhile isDigitChar, r2.takeWhile isDigitChar,
                r4.takeWhile isDigitChar, pre, bld)
            | none => none
          else none
        else none
      | [] => none
    else none
  | [] => none

/-- charToDigit is the value of a decimal digit character. -/
def charToDigit (c : Char) : Nat :=
  c.toNat - 48

/-- digitsToNat accumulates a decimal digit string left to right, as
`strconv.ParseUint` does. -/
def digitsToNat (s : List Char) : Nat :=
  s.foldl (fun acc c => 10 * acc + charToDigit c) 0

/-- parseUint64 models `strconv.ParseUint(s, 10, 64)` on the strings the
parser feeds it: `none` on the empty string, on a non-digit character
(neither can reach it from a regex capture) and on overflow of the 64-bit
range (`strconv.ErrRange`), the numeric value otherwise. -/
def parseUint64 (s : List Char) : Option Nat :=
  if s ≠ [] ∧ s.all isDigitChar then
    if digitsToNat s < 2 ^ 64 then some (digitsToNat s) else none
  else none

/-- trimLeadingV models `strings.TrimPrefix(input, "v")`: drop one leading
`v` if present. -/
def trimLeadingV (s : List Char) : List Char :=
  match s with
  | [] => []
  | c :: rest => if c = 'v' then rest else c :: rest

/-- parseMatched is the body of `TryParse` after the emptiness check and the
prefix stripping: regex match, then the three `strconv.ParseUint` calls, then
struct construction.  The Go guard `len(matches) < 6` is omitted: on a match,
`FindStringSubmatch` always returns one entry per group plus the whole match,
six entries here, so that branch is unreachable. -/
def parseMatched (version : List Char) : Version × Option VersionError :=
  match reFindSubmatch version with
  | none => (Version.zero, some .errInvalidFormat)
  | some (maj, minr, pat, pre, bld) =>
    match parseUint64 maj with
    | none => (Version.zero, some .errNumeric)
    | some major =>
      match parseUint64 minr with
      | none => (Version.zero, some .errNumeric)
      | some minor =>
        match parseUint64 pat with
        | none => (Version.zero, some .errNumeric)
        | some patch =>
          ({ major := major, minor := minor, patch := patch,
             preRelease := pre, build := bld }, none)

/-- TryParse models Go's `TryParse`: empty-input check on the raw input,
prefix stripping, then `parseMatched`. -/
def TryParse (input : List Char) : Version × Option VersionError :=
  if input = [] then (Version.zero, some .errEmpty)
  else parseMatched (trimLeadingV input)

/-- Parse models Go's `Parse`: it delegates to `TryParse` and aborts on an
error; the abort is modelled as `none`. -/
def Parse (input : List Char) : Option Version :=
  match TryParse input with
  | (v, none) => some v
  | (_, some _) => none

/-- natDigitChar renders one decimal digit value as its character, as Go's
`fmt` `%d` verb emits digits. -/
def natDigitChar (d : Nat) : Char :=
  Char.ofNat (48 + d)

/-- digitsRev extracts the base-10 digit values of `n`, least significant
first; `fuel` only forces structural termination and any `fuel ≥ n` yields
the same result (`digitsRev_eq_digits`). -/
def digitsRev (fuel n : Nat) : List Nat :=
  match fuel with
  | 0 => []
  | fuel + 1 => if n = 0 then [] else n % 10 :: digitsRev fuel (n / 10)

/-- natToString models the `%d` rendering of a `uint64`: most significant
digit first, no leading zeros, `0` for zero. -/
def natToString (n : Nat) : List Char :=
  if n = 0 then ['0'] else (digitsRev n n).reverse.map natDigitChar

/-- Version.string models the Go method `Version.String`:
`MAJOR.MINOR.PATCH`, then `-PRERELEASE` iff the prerelease field is
non-empty, then `+BUILD` iff the build field is non-empty. -/
def Version.string (v : Version) : List Char :=
  (natToString v.major ++ '.' :: natToString v.minor ++ '.' :: natToString v.patch)
    ++ (if v.preRelease ≠ [] then '-' :: v.preRelease else [])
    ++ (if v.build ≠ [] then '+' :: v.build else [])

/-- lexLt models Go's `<` on strings: lexicographic byte-wise comparison,
which on UTF-8 text coincides with lexicographic scalar-value comparison. -/
def lexLt : List Char → List Char → Bool
  | _, [] => false
  | [], _ :: _ => true
  | a :: as, b :: bs =>
    if a.toNat < b.toNat then true
    else if b.toNat < a.toNat then false
    else lexLt as bs

/-- comparePre is the prerelease tail of Go's `Version.Compare` (everything
after the three numeric early returns), preserving its sequence of guards:
Go's `v.PreRelease > other.PreRelease` is `lexLt other.PreRelease
v.PreRelease`. -/
def comparePre (p q : List Char) : Int :=
  if p = [] ∧ q ≠ [] then 1
  else if p ≠ [] ∧ q = [] then -1
  else if p ≠ [] ∧ q ≠ [] then
    (if lexLt q p then 1 else if lexLt p q then -1 else 0)
  else 0

/-- Version.compare models the Go method `Version.Compare`, preserving its
sequence of early returns; the prerelease tail is factored out as
`comparePre`. -/
def Version.compare (v other : Version) : Int :=
  if v.major ≠ other.major then
    (if v.major > other.major then 1 else -1)
  else if v.minor ≠ other.minor then
    (if v.minor > other.minor then 1 else -1)
  else if v.patch ≠ other.patch then
    (if v.patch > other.patch then 1 else -1)
  else comparePre v.preRelease other.preRelease

/-- vGt expresses `v` strictly above `o` in SemVer precedence, with the
prerelease level phrased through `comparePre`. -/
def vGt (v o : Version) : Prop :=
  o.major < v.major ∨ (v.major = o.major ∧
    (o.minor < v.minor ∨ (v.minor = o.minor ∧
      (o.patch < v.patch ∨ (v.patch = o.patch ∧
        comparePre v.preRelease o.preRelease = 1)))))

theorem charToNat_inj {a b : Char} (h : a.toNat = b.toNat) : a = b :=
  Char.ext (UInt32.toNat.inj h)

theorem lexLt_irrefl (l : List Char) : lexLt l l = false := by
  induction l with
  | nil => rfl
  | cons a t ih => simp [lexLt, ih]

theorem lexLt_asymm (a : List Char) :
    ∀ b, lexLt a b = true → lexLt b a = false := by
  induction a with
  | nil =>
    intro b h
    cases b with
    | nil => simp [lexLt] at h
    | cons y s => simp [lexLt]
  | cons x t ih =>
    intro b h
    cases b with
    | nil => simp [lexLt] at h
    | cons y s =>
      simp only [lexLt] at h ⊢
      by_cases h1 : x.toNat < y.toNat
      · have h2 : ¬ y.toNat < x.toNat := by omega
        simp [h1, h2]
      · by_cases h2 : y.toNat < x.toNat
        · simp [h1, h2] at h
        · simp only [h1, h2, if_false, if_neg] at h ⊢
          exact ih s h

theorem lexLt_trans (a : List Char) :
    ∀ b c, lexLt a b = true → lexLt b c = true → lexLt a c = true := by
  induction a with
  | nil =>
    intro b c h1 h2
    cases b with
    | nil => simp [lexLt] at h1
    | cons y s =>
      cases c with
      | nil => simp [lexLt] at h2
      | cons z u => simp [lexLt]
  | cons x t ih =>
    intro b c h1 h2
    cases b with
    | nil => simp [lexLt] at h1
    | cons y s =>
      cases c with
      | nil => simp [lexLt] at h2
      | cons z u =>
        simp only [lexLt] at h1 h2 ⊢
        by_cases hxy : x.toNat < y.toNat
        · by_cases hyz : y.toNat < z.toNat
          · have : x.toNat < z.toNat := by omega
            simp [this]
          · by_cases hzy : z.toNat < y.toNat
            · simp [hyz, hzy] at h2
            · have : x.toNat < z.toNat := by omega
              simp [this]
        · by_cases hyx : y.toNat < x.toNat
          · simp [hxy, hyx] at h1
          · by_cases hyz : y.toNat < z.toNat
            · have : x.toNat < z.toNat := by omega
              simp [this]
            · by_cases hzy : z.toNat < y.toNat
              · simp [hyz, hzy] at h2
              · have hxz : ¬ x.toNat < z.toNat := by omega
                have hzx : ¬ z.toNat < x.toNat := by omega
                simp only [hxy, hyx, if_neg, if_false] at h1
                simp only [hyz, hzy, if_neg, if_false] at h2
                simp only [hxz, hzx, if_neg, if_false]
                exact ih s u h1 h2

theorem lexLt_connex (a : List Char) :
    ∀ b, lexLt a b = false → lexLt b a = false → a = b := by
  induction a with
  | nil =>
    intro b h1 _
    cases b with
    | nil => rfl
    | cons y s => simp [lexLt] at h1
  | cons x t ih =>
    intro b h1 h2
    cases b with
    | nil => simp [lexLt] at h2
    | cons y s =>
      simp only [lexLt] at h1 h2
      by_cases hxy : x.toNat < y.toNat
      · simp [hxy] at h1
      · by_cases hyx : y.toNat < x.toNat
        · simp [hyx] at h2
        · simp only [hxy, hyx, if_neg, if_false] at h1 h2
          have hx : x = y := charToNat_inj (by omega)
          rw [hx, ih s h1 h2]

theorem comparePre_refl (p : List Char) : comparePre p p = 0 := by
  by_cases hp : p = [] <;> simp [comparePre, hp, lexLt_irrefl]

theorem comparePre_antisym (p q : List Char) : comparePre p q = -(comparePre q p) := by
  by_cases hp : p = []
  · by_cases hq : q = [] <;> simp [comparePre, hp, hq]
  · by_cases hq : q = []
    · simp [comparePre, hp, hq]
    · by_cases h1 : lexLt q p = true
      · have h2 : lexLt p q = false := lexLt_asymm q p h1
        simp [comparePre, hp, hq, h1, h2]
      · by_cases h2 : lexLt p q = true
        · simp [comparePre, hp, hq, h1, h2]
        · simp [comparePre, hp, hq, h1, h2]

theorem comparePre_eq_one_iff (p q : List Char) :
    comparePre p q = 1 ↔ (q ≠ [] ∧ (p = [] ∨ lexLt q p = true)) := by
  by_cases hp : p = []
  · by_cases hq : q = [] <;> simp [comparePre, hp, hq]
  · by_cases hq : q = []
    · simp [comparePre, hp, hq]
    · by_cases h1 : lexLt q p = true
      · simp [comparePre, hp, hq, h1]
      · simp only [Bool.not_eq_true] at h1
        by_cases h2 : lexLt p q = true
        · simp [comparePre, hp, hq, h1, h2]
        · simp [comparePre, hp, hq, h1, h2]

theorem comparePre_trans_one (p q r : List Char)
    (h1 : comparePre p q = 1) (h2 : comparePre q r = 1) : comparePre p r = 1 := by
  rw [comparePre_eq_one_iff] at h1 h2 ⊢
  obtain ⟨hq, h1⟩ := h1
  obtain ⟨hr, h2⟩ := h2
  refine ⟨hr, ?_⟩
  rcases h1 with h1 | h1
  · exact Or.inl h1
  · rcases h2 with h2 | h2
    · exact absurd h2 hq
    · exact Or.inr (lexLt_trans r q p h2 h1)

theorem comparePre_eq_zero_iff (p q : List Char) : comparePre p q = 0 ↔ p = q := by
  by_cases hp : p = []
  · by_cases hq : q = [] <;> simp [comparePre, hp, hq]
  · by_cases hq : q = []
    · simp [comparePre, hp, hq]
    · have hval : comparePre p q =
          (if lexLt q p = true then 1 else if lexLt p q = true then -1 else 0) := by
        simp [comparePre, hp, hq]
      rw [hval]
      by_cases h1 : lexLt q p = true
      · rw [if_pos h1]
        constructor
        · intro h'; exact absurd h' (by norm_num)
        · intro h'; subst h'; rw [lexLt_irrefl] at h1; cases h1
      · rw [if_neg h1]
        by_cases h2 : lexLt p q = true
        · rw [if_pos h2]
          constructor
          · intro h'; exact absurd h' (by norm_num)
          · intro h'; subst h'; rw [lexLt_irrefl] at h2; cases h2
        · rw [if_neg h2]
          simp only [Bool.not_eq_true] at h1 h2
          simp [lexLt_connex p q h2 h1]

theorem compare_major_lt {v o : Version} (h : v.major < o.major) : v.compare o = -1 := by
  have h1 : v.major ≠ o.major := by omega
  have h2 : ¬ v.major > o.major := by omega
  simp [Version.compare, h1, h2]

theorem compare_major_gt {v o : Version} (h : o.major < v.major) : v.compare o = 1 := by
  have h1 : v.major ≠ o.major := by omega
  have h2 : v.major > o.major := by omega
  simp [Version.compare, h1, h2]

theorem compare_minor_lt {v o : Version} (hM : v.major = o.major)
    (h : v.minor < o.minor) : v.compare o = -1 := by
  have h1 : v.minor ≠ o.minor := by omega
  have h2 : ¬ v.minor > o.minor := by omega
  simp [Version.compare, hM, h1, h2]

theorem compare_minor_gt {v o : Version} (hM : v.major = o.major)
    (h : o.minor < v.minor) : v.compare o = 1 := by
  have h1 : v.minor ≠ o.minor := by omega
  have h2 : v.minor > o.minor := by omega
  simp [Version.compare, hM, h1, h2]

theorem compare_patch_lt {v o : Version} (hM : v.major = o.major)
    (hm : v.minor = o.minor) (h : v.patch < o.patch) : v.compare o = -1 := by
  have h1 : v.patch ≠ o.patch := by omega
  have h2 : ¬ v.patch > o.patch := by omega
  simp [Version.compare, hM, hm, h1, h2]

theorem compare_patch_gt {v o : Version} (hM : v.major = o.major)
    (hm : v.minor = o.minor) (h : o.patch < v.patch) : v.compare o = 1 := by
  have h1 : v.patch ≠ o.patch := by omega
  have h2 : v.patch > o.patch := by omega
  simp [Version.compare, hM, hm, h1, h2]

theorem compare_pre {v o : Version} (hM : v.major = o.major)
    (hm : v.minor = o.minor) (hp : v.patch = o.patch) :
    v.compare o = comparePre v.preRelease o.preRelease := by
  simp [Version.compare, hM, hm, hp]

theorem compare_eq_one_iff (v o : Version) : v.compare o = 1 ↔ vGt v o := by
  unfold vGt
  rcases Nat.lt_trichotomy v.major o.major with h | h | h
  · rw [compare_major_lt h]
    constructor
    · intro h'; exact absurd h' (by norm_num)
    · rintro (h' | ⟨h', _⟩) <;> omega
  · rcases Nat.lt_trichotomy v.minor o.minor with h2 | h2 | h2
    · rw [compare_minor_lt h h2]
      constructor
      · intro h'; exact absurd h' (by norm_num)
      · rintro (h' | ⟨_, h' | ⟨h', _⟩⟩) <;> omega
    · rcases Nat.lt_trichotomy v.patch o.patch with h3 | h3 | h3
      · rw [compare_patch_lt h h2 h3]
        constructor
        · intro h'; exact absurd h' (by norm_num)
        · rintro (h' | ⟨_, h' | ⟨_, h' | ⟨h', _⟩⟩⟩) <;> omega
      · rw [compare_pre h h2 h3]
        constructor
        · intro h'
          exact Or.inr ⟨h, Or.inr ⟨h2, Or.inr ⟨h3, h'⟩⟩⟩
        · rintro (h' | ⟨_, h' | ⟨_, h' | ⟨_, h'⟩⟩⟩)
          · omega
          · omega
          · omega
          · exact h'
      · rw [compare_patch_gt h h2 h3]
        constructor
        · intro _
          exact Or.inr ⟨h, Or.inr ⟨h2, Or.inl h3⟩⟩
        · intro _; rfl
    · rw [compare_minor_gt h h2]
      constructor
      · intro _
        exact Or.inr ⟨h, Or.inl h2⟩
      · intro _; rfl
  · rw [compare_major_gt h]
    constructor
    · intro _
      exact Or.inl h
    · intro _; rfl

theorem compare_eq_zero_iff (v o : Version) :
    v.compare o = 0 ↔ (v.major = o.major ∧ v.minor = o.minor ∧ v.patch = o.patch ∧
      v.preRelease = o.preRelease) := by
  rcases Nat.lt_trichotomy v.major o.major with h | h | h
  · rw [compare_major_lt h]
    constructor
    · intro h'; exact absurd h' (by norm_num)
    · rintro ⟨h', _⟩; omega
  · rcases Nat.lt_trichotomy v.minor o.minor with h2 | h2 | h2
    · rw [compare_minor_lt h h2]
      constructor
      · intro h'; exact absurd h' (by norm_num)
      · rintro ⟨_, h', _⟩; omega
    · rcases Nat.lt_trichotomy v.patch o.patch with h3 | h3 | h3
      · rw [compare_patch_lt h h2 h3]
        constructor
        · intro h'; exact absurd h' (by norm_num)
        · rintro ⟨_, _, h', _⟩; omega
      · rw [compare_pre h h2 h3, comparePre_eq_zero_iff]
        constructor
        · intro h'
          exact ⟨h, h2, h3, h'⟩
        · rintro ⟨_, _, _, h'⟩
          exact h'
      · rw [compare_patch_gt h h2 h3]
        constructor
        · intro h'; exact absurd h' (by norm_num)
        · rintro ⟨_, _, h', _⟩; omega
    · rw [compare_minor_gt h h2]
      constructor
      · intro h'; exact absurd h' (by norm_num)
      · rintro ⟨_, h', _⟩; omega
  · rw [compare_major_gt h]
    constructor
    · intro h'; exact absurd h' (by norm_num)
    · rintro ⟨h', _⟩; omega

theorem compare_antisym (v o : Version) : v.compare o = -(o.compare v) := by
  rcases Nat.lt_trichotomy v.major o.major with h | h | h
  · rw [compare_major_lt h, compare_major_gt h]
  · rcases Nat.lt_trichotomy v.minor o.minor with h2 | h2 | h2
    · rw [compare_minor_lt h h2, compare_minor_gt h.symm h2]
    · rcases Nat.lt_trichotomy v.patch o.patch with h3 | h3 | h3
      · rw [compare_patch_lt h h2 h3, compare_patch_gt h.symm h2.symm h3]
      · rw [compare_pre h h2 h3, compare_pre h.symm h2.symm h3.symm]
        exact comparePre_antisym _ _
      · rw [compare_patch_gt h h2 h3, compare_patch_lt h.symm h2.symm h3]
        norm_num
    · rw [compare_minor_gt h h2, compare_minor_lt h.symm h2]
      norm_num
  · rw [compare_major_gt h, compare_major_lt h]
    norm_num

theorem vGt_trans {a b c : Version} (h1 : vGt a b) (h2 : vGt b c) : vGt a c := by
  unfold vGt at h1 h2 ⊢
  rcases h1 with h1 | ⟨e1, h1⟩
  · rcases h2 with h2 | ⟨e2, h2⟩ <;> [left; left] <;> omega
  · rcases h2 with h2 | ⟨e2, h2⟩
    · left; omega
    · refine Or.inr ⟨by omega, ?_⟩
      rcases h1 with h1 | ⟨f1, h1⟩
      · rcases h2 with h2 | ⟨f2, h2⟩ <;> [left; left] <;> omega
      · rcases h2 with h2 | ⟨f2, h2⟩
        · left; omega
        · refine Or.inr ⟨by omega, ?_⟩
          rcases h1 with h1 | ⟨g1, h1⟩
          · rcases h2 with h2 | ⟨g2, h2⟩ <;> [left; left] <;> omega
          · rcases h2 with h2 | ⟨g2, h2⟩
            · left; omega
            · exact Or.inr ⟨by omega, comparePre_trans_one _ _ _ h1 h2⟩

/-- Claim C4: Compare is a strict total order compatible with equality on
(major, minor, patch, prerelease) only: Compare(a,a) = 0; Compare(a,b) is
the negation of Compare(b,a); Compare is transitive on the value 1; and
Compare(a,b) = 0 exactly when a and b agree on major, minor, patch and
prerelease — so two Versions differing only in build metadata compare
equal. -/
theorem compare_strict_total_order :
    (∀ a : Version, a.compare a = 0) ∧
    (∀ a b : Version, a.compare b = -(b.compare a)) ∧
    (∀ a b c : Version, a.compare b = 1 → b.compare c = 1 → a.compare c = 1) ∧
    (∀ a b : Version, a.compare b = 0 ↔
      (a.major = b.major ∧ a.minor = b.minor ∧ a.patch = b.patch ∧
        a.preRelease = b.preRelease)) ∧
    (∀ a b : Version, a.major = b.major → a.minor = b.minor → a.patch = b.patch →
      a.preRelease = b.preRelease → a.compare b = 0) := by
  refine ⟨?_, compare_antisym, ?_, compare_eq_zero_iff, ?_⟩
  · intro a
    exact (compare_eq_zero_iff a a).2 ⟨rfl, rfl, rfl, rfl⟩
  · intro a b c h1 h2
    rw [compare_eq_one_iff] at h1 h2 ⊢
    exact vGt_trans h1 h2
  · intro a b h1 h2 h3 h4
    exact (compare_eq_zero_iff a b).2 ⟨h1, h2, h3, h4⟩

/-- Witness for C4: the transitivity component applied at concrete versions,
and the build-irrelevance component at versions differing only in build. -/
theorem compare_strict_total_order_witness :
    Version.compare ⟨3, 0, 0, [], []⟩ ⟨1, 0, 0, [], []⟩ = 1 ∧
    Version.compare ⟨1, 2, 3, [], "001".toList⟩ ⟨1, 2, 3, [], "002".toList⟩ = 0 :=
  ⟨compare_strict_total_order.2.2.1 ⟨3, 0, 0, [], []⟩ ⟨2, 0, 0, [], []⟩ ⟨1, 0, 0, [], []⟩
      (by decide) (by decide),
    compare_strict_total_order.2.2.2.2 ⟨1, 2, 3, [], "001".toList⟩ ⟨1, 2, 3, [], "002".toList⟩
      rfl rfl rfl rfl⟩

/-- Claim C5: among Versions equal on major, minor and patch where exactly
one has a non-empty prerelease, Compare ranks the prerelease-free Version
strictly greater; in particular Compare(Parse("1.0.0"), Parse("1.0.0-alpha"))
is 1. -/
theorem release_above_prerelease :
    (∀ a b : Version, a.major = b.major → a.minor = b.minor → a.patch = b.patch →
      a.preRelease = [] → b.preRelease ≠ [] → a.compare b = 1) ∧
    (∀ va vb : Version, Parse "1.0.0".toList = some va →
      Parse "1.0.0-alpha".toList = some vb → va.compare vb = 1) := by
  constructor
  · intro a b h1 h2 h3 hp hq
    rw [compare_pre h1 h2 h3, comparePre_eq_one_iff]
    exact ⟨hq, Or.inl hp⟩
  · intro va vb hva hvb
    have h1 : Parse "1.0.0".toList = some ⟨1, 0, 0, [], []⟩ := by decide
    have h2 : Parse "1.0.0-alpha".toList = some ⟨1, 0, 0, "alpha".toList, []⟩ := by decide
    rw [h1, Option.some.injEq] at hva
    rw [h2, Option.some.injEq] at hvb
    subst hva
    subst hvb
    decide

/-- Witness for C5: the concrete comparison after parsing both inputs. -/
theorem release_above_prerelease_witness :
    Version.compare ⟨1, 0, 0, [], []⟩ ⟨1, 0, 0, "alpha".toList, []⟩ = 1 :=
  release_above_prerelease.2 ⟨1, 0, 0, [], []⟩ ⟨1, 0, 0, "alpha".toList, []⟩
    (by decide) (by decide)

theorem parseMatched_ne_errEmpty (ver : List Char) :
    (parseMatched ver).2 ≠ some VersionError.errEmpty := by
  unfold parseMatched
  split
  · simp
  · split
    · simp
    · split
      · simp
      · split
        · simp
        · simp

/-- Claim C9: the input consisting of only the prefix character is treated
as non-empty: TryParse("v") returns ErrInvalidFormat, not ErrEmpty, because
the emptiness check runs before the prefix character is stripped. -/
theorem lone_v_invalid_format :
    TryParse ['v'] = (Version.zero, some VersionError.errInvalidFormat) ∧
    VersionError.errInvalidFormat ≠ VersionError.errEmpty := by
  decide

/-- Counterexample to C2 as stated: a whitespace-only input (three spaces)
does not yield ErrEmpty — TryParse performs no trimming and reports
ErrInvalidFormat for it. -/
theorem err_empty_whitespace_cex :
    (TryParse "   ".toList).2 ≠ some VersionError.errEmpty ∧
    TryParse "   ".toList = (Version.zero, some VersionError.errInvalidFormat) := by
  decide

/-- Claim C2 (amended): TryParse returns ErrEmpty exactly when the raw input
string has zero length — no whitespace trimming is performed.  TryParse("")
yields ErrEmpty, while a whitespace-only input such as three spaces yields
ErrInvalidFormat. -/
theorem err_empty_iff :
    (∀ s : List Char, (TryParse s).2 = some VersionError.errEmpty ↔ s = []) ∧
    TryParse [] = (Version.zero, some VersionError.errEmpty) ∧
    TryParse "   ".toList = (Version.zero, some VersionError.errInvalidFormat) := by
  refine ⟨?_, by decide, by decide⟩
  intro s
  constructor
  · intro h
    unfold TryParse at h
    split at h
    · assumption
    · exact absurd h (parseMatched_ne_errEmpty _)
  · intro h
    subst h
    decide

/-- Witness for C2: the amended equivalence applied at the empty input. -/
theorem err_empty_iff_witness : (TryParse []).2 = some VersionError.errEmpty :=
  (err_empty_iff.1 []).2 rfl

/-- Claim C7: error atomicity — whenever TryParse returns an error, the
Version it returns alongside is the zero-valued Version. -/
theorem error_atomicity :
    ∀ (s : List Char) (v : Version) (e : VersionError),
      TryParse s = (v, some e) → v = Version.zero := by
  intro s v e h
  unfold TryParse at h
  split at h
  · injection h with h1 h2
    exact h1.symm
  · unfold parseMatched at h
    split at h
    · injection h with h1 h2
      exact h1.symm
    · split at h
      · injection h with h1 h2
        exact h1.symm
      · split at h
        · injection h with h1 h2
          exact h1.symm
        · split at h
          · injection h with h1 h2
            exact h1.symm
          · injection h with h1 h2
            cases h2

/-- Witness for C7: applied at the malformed input "1.2". -/
theorem error_atomicity_witness : (TryParse "1.2".toList).1 = Version.zero :=
  error_atomicity "1.2".toList (TryParse "1.2".toList).1 VersionError.errInvalidFormat
    (by decide)

theorem invalid_format_of_no_match (s : List Char) (h0 : s ≠ [])
    (h : reFindSubmatch (trimLeadingV s) = none) :
    TryParse s = (Version.zero, some VersionError.errInvalidFormat) := by
  unfold TryParse
  rw [if_neg h0]
  unfold parseMatched
  rw [h]

/-- Claim C8: anchored grammar rejection — "1.2", "invalid-version" and
"1.2.3.4" all yield ErrInvalidFormat; empty prerelease or build segments
(trailing dash, trailing dot, double dot) are also rejected; and in general
every non-empty input whose prefix-stripped text fails the anchored regex
match yields ErrInvalidFormat. -/
theorem invalid_format_rejection :
    TryParse "1.2".toList = (Version.zero, some VersionError.errInvalidFormat) ∧
    TryParse "invalid-version".toList = (Version.zero, some VersionError.errInvalidFormat) ∧
    TryParse "1.2.3.4".toList = (Version.zero, some VersionError.errInvalidFormat) ∧
    TryParse "1.2.3-".toList = (Version.zero, some VersionError.errInvalidFormat) ∧
    TryParse "1.2.3-a.".toList = (Version.zero, some VersionError.errInvalidFormat) ∧
    TryParse "1.2.3-a..b".toList = (Version.zero, some VersionError.errInvalidFormat) ∧
    TryParse "1.2.3+b.".toList = (Version.zero, some VersionError.errInvalidFormat) ∧
    (∀ s : List Char, s ≠ [] → reFindSubmatch (trimLeadingV s) = none →
      TryParse s = (Version.zero, some VersionError.errInvalidFormat)) := by
  refine ⟨by decide, by decide, by decide, by decide, by decide, by decide, by decide,
    invalid_format_of_no_match⟩

/-- Witness for C8: the general rejection component applied at a concrete
non-matching input. -/
theorem invalid_format_rejection_witness :
    TryParse "x.y.z".toList = (Version.zero, some VersionError.errInvalidFormat) :=
  invalid_format_rejection.2.2.2.2.2.2.2 "x.y.z".toList (by decide) (by decide)

theorem trimLeadingV_eq_self {s : List Char} (h : s.head? ≠ some 'v') :
    trimLeadingV s = s := by
  cases s with
  | nil => rfl
  | cons c t =>
    simp only [List.head?_cons, ne_eq, Option.some.injEq] at h
    simp [trimLeadingV, h]

/-- Claim C6: prefix normalization — if TryParse accepts s (with nil error)
and s does not itself start with the prefix character, then TryParse accepts
the input with a single leading v prepended, producing the same Version and
the same nil error. -/
theorem v_prefix_normalization :
    ∀ (s : List Char) (v : Version), TryParse s = (v, none) →
      s.head? ≠ some 'v' → TryParse ('v' :: s) = (v, none) := by
  intro s v h hv
  have hs : s ≠ [] := by
    intro h0
    subst h0
    simp [TryParse] at h
  unfold TryParse at h
  rw [if_neg hs, trimLeadingV_eq_self hv] at h
  unfold TryParse
  rw [if_neg (by simp : ('v' :: s : List Char) ≠ [])]
  have ht : trimLeadingV ('v' :: s) = s := by simp [trimLeadingV]
  rw [ht]
  exact h

/-- Witness for C6: applied at the input "1.0.0". -/
theorem v_prefix_normalization_witness :
    TryParse ('v' :: "1.0.0".toList) = (⟨1, 0, 0, [], []⟩, none) :=
  v_prefix_normalization "1.0.0".toList ⟨1, 0, 0, [], []⟩ (by decide) (by decide)

theorem matchPre_nil : matchPre [] = false := by decide

theorem matchBuild_nil : matchBuild [] = false := by decide

theorem parseSuffix_sound {r p b : List Char} (h : parseSuffix r = some (p, b)) :
    r = (if p = [] then [] else '-' :: p) ++ (if b = [] then [] else '+' :: b) := by
  unfold parseSuffix at h
  split at h
  · injection h with h1
    injection h1 with hp hb
    subst hp
    subst hb
    simp
  · rename_i c rest
    split at h
    · rename_i hc
      split at h
      · rename_i hmp
        split at h
        · rename_i heq
          injection h with h1
          injection h1 with hp hb
          subst hp
          subst hb
          have hp0 : rest.takeWhile (fun x => x != '+') ≠ [] := by
            intro h0
            rw [h0, matchPre_nil] at hmp
            cases hmp
          rw [if_neg hp0, if_pos rfl, List.append_nil, hc]
          have hw := List.takeWhile_append_dropWhile (fun x => x != '+') rest
          rw [heq, List.append_nil] at hw
          rw [hw]
        · rename_i c2 b2 heq
          split at h
          · rename_i hc2
            split at h
            · rename_i hmb
              injection h with h1
              injection h1 with hp hb
              subst hp
              subst hb
              have hp0 : rest.takeWhile (fun x => x != '+') ≠ [] := by
                intro h0
                rw [h0, matchPre_nil] at hmp
                cases hmp
              have hb0 : b2 ≠ [] := by
                intro h0
                rw [h0, matchBuild_nil] at hmb
                cases hmb
              rw [if_neg hp0, if_neg hb0, hc]
              have hw := List.takeWhile_append_dropWhile (fun x => x != '+') rest
              rw [heq, hc2] at hw
              rw [List.cons_append, hw]
            · cases h
          · cases h
      · cases h
    · split at h
      · rename_i hc hplus
        split at h
        · rename_i hmb
          injection h with h1
          injection h1 with hp hb
          subst hp
          subst hb
          have hb0 : rest ≠ [] := by
            intro h0
            rw [h0, matchBuild_nil] at hmb
            cases hmb
          rw [if_pos rfl, if_neg hb0, hplus]
          simp
        · cases h
      · cases h

theorem reFindSubmatch_sound {s a b c p bl : List Char}
    (h : reFindSubmatch s = some (a, b, c, p, bl)) :
    s = a ++ '.' :: (b ++ '.' :: (c ++
        ((if p = [] then [] else '-' :: p) ++ (if bl = [] then [] else '+' :: bl)))) ∧
      matchNumIdent a = true ∧ matchNumIdent b = true ∧ matchNumIdent c = true := by
  unfold reFindSubmatch at h
  split at h
  · rename_i c1 r2 heq1
    split at h
    · rename_i hc1
      split at h
      · rename_i c2 r4 heq2
        split at h
        · rename_i hc2
          split at h
          · rename_i hnum
            split at h
            · rename_i pre bld heq3
              injection h with h1
              injection h1 with h2 h1
              injection h1 with h3 h1
              injection h1 with h4 h1
              injection h1 with h5 h6
              subst h2
              subst h3
              subst h4
              subst h5
              subst h6
              simp only [Bool.and_eq_true] at hnum
              obtain ⟨⟨hA, hB⟩, hC⟩ := hnum
              refine ⟨?_, hA, hB, hC⟩
              have e1 := (List.takeWhile_append_dropWhile isDigitChar s).symm
              rw [heq1, hc1] at e1
              have e2 := (List.takeWhile_append_dropWhile isDigitChar r2).symm
              rw [heq2, hc2] at e2
              have e3 := (List.takeWhile_append_dropWhile isDigitChar r4).symm
              rw [parseSuffix_sound heq3] at e3
              conv_lhs => rw [e1]
              conv_lhs => rw [e2]
              conv_lhs => rw [e3]
            · cases h
          · cases h
        · cases h
      · cases h
    · cases h
  · cases h

theorem matchNumIdent_head {ch : Char} {t : List Char}
    (h : matchNumIdent (ch :: t) = true) : isDigitChar ch = true := by
  simp only [matchNumIdent] at h
  split at h
  · exact h
  · simp only [Bool.and_eq_true, decide_eq_true_eq] at h
    obtain ⟨⟨h1, h2⟩, _⟩ := h
    simp only [isDigitChar, decide_eq_true_eq]
    omega

theorem matchNumIdent_digits {l : List Char} (h : matchNumIdent l = true) :
    l ≠ [] ∧ l.all isDigitChar = true := by
  cases l with
  | nil => simp [matchNumIdent] at h
  | cons ch t =>
    refine ⟨by simp, ?_⟩
    have hd := matchNumIdent_head h
    simp only [matchNumIdent] at h
    split at h
    · rename_i ht
      subst ht
      simp [hd]
    · simp only [Bool.and_eq_true, decide_eq_true_eq] at h
      obtain ⟨_, h3⟩ := h
      simp [hd, h3]

theorem parseMatched_ok_match {ver : List Char} {v : Version}
    (h : parseMatched ver = (v, none)) :
    ∃ r, reFindSubmatch ver = some r := by
  unfold parseMatched at h
  split at h
  · injection h with h1 h2
    cases h2
  · rename_i maj minr pat pre bld heq
    exact ⟨_, heq⟩

theorem reFindSubmatch_none_cons {ch : Char} (s : List Char)
    (hd : isDigitChar ch = false) (hdot : ch ≠ '.') :
    reFindSubmatch (ch :: s) = none := by
  simp [reFindSubmatch, List.dropWhile_cons, hd, hdot]

/-- Claim C10: exactly one lowercase v prefix is recognized — for every
input s that TryParse accepts without a prefix, both the uppercase-prefixed
input V++s and the doubly-prefixed input vv++s are rejected with
ErrInvalidFormat. -/
theorem single_lower_v_only :
    ∀ (s : List Char) (v : Version), TryParse s = (v, none) → s.head? ≠ some 'v' →
      TryParse ('V' :: s) = (Version.zero, some VersionError.errInvalidFormat) ∧
      TryParse ('v' :: 'v' :: s) = (Version.zero, some VersionError.errInvalidFormat) := by
  intro s v h hv
  constructor
  · apply invalid_format_of_no_match _ (by simp)
    have ht : trimLeadingV ('V' :: s) = 'V' :: s := by
      simp [trimLeadingV]
    rw [ht]
    exact reFindSubmatch_none_cons s (by decide) (by decide)
  · apply invalid_format_of_no_match _ (by simp)
    have ht : trimLeadingV ('v' :: 'v' :: s) = 'v' :: s := by
      simp [trimLeadingV]
    rw [ht]
    exact reFindSubmatch_none_cons s (by decide) (by decide)

/-- Witness for C10: applied at the accepted input "1.0.0". -/
theorem single_lower_v_only_witness :
    TryParse ('V' :: "1.0.0".toList) = (Version.zero, some VersionError.errInvalidFormat) ∧
    TryParse ('v' :: 'v' :: "1.0.0".toList) =
      (Version.zero, some VersionError.errInvalidFormat) :=
  single_lower_v_only "1.0.0".toList ⟨1, 0, 0, [], []⟩ (by decide) (by decide)

theorem digitsToNat_go (s : List Char) (acc : Nat) :
    s.foldl (fun a c => 10 * a + charToDigit c) acc
      = acc * 10 ^ s.length + Nat.ofDigits 10 ((s.map charToDigit).reverse) := by
  induction s generalizing acc with
  | nil => simp [Nat.ofDigits_nil]
  | cons c t ih =>
    simp only [List.foldl_cons, List.map_cons, List.reverse_cons, List.length_cons]
    rw [ih, Nat.ofDigits_append, Nat.ofDigits_singleton]
    simp only [List.length_reverse, List.length_map]
    ring

theorem digitsToNat_eq_ofDigits (s : List Char) :
    digitsToNat s = Nat.ofDigits 10 ((s.map charToDigit).reverse) := by
  have h := digitsToNat_go s 0
  simpa [digitsToNat] using h

theorem digitsRev_eq_digits (fuel n : Nat) (h : n ≤ fuel) :
    digitsRev fuel n = Nat.digits 10 n := by
  induction fuel generalizing n with
  | zero =>
    have h0 : n = 0 := by omega
    subst h0
    simp [digitsRev]
  | succ fuel ih =>
    by_cases h0 : n = 0
    · subst h0
      simp [digitsRev]
    · simp only [digitsRev, if_neg h0]
      rw [ih (n / 10) (by omega),
        Nat.digits_def' (by norm_num : (1 : ℕ) < 10) (Nat.pos_of_ne_zero h0)]

theorem charToDigit_lt_ten {c : Char} (h : isDigitChar c = true) : charToDigit c < 10 := by
  simp only [isDigitChar, decide_eq_true_eq] at h
  simp only [charToDigit]
  omega

theorem natDigitChar_charToDigit {c : Char} (h : isDigitChar c = true) :
    natDigitChar (charToDigit c) = c := by
  simp only [isDigitChar, decide_eq_true_eq] at h
  have he : 48 + (c.toNat - 48) = c.toNat := by omega
  unfold natDigitChar charToDigit
  rw [he, Char.ofNat_toNat]

theorem natToString_digitsToNat {s : List Char} (h : matchNumIdent s = true) :
    natToString (digitsToNat s) = s := by
  cases s with
  | nil => simp [matchNumIdent] at h
  | cons ch t =>
    have hd := matchNumIdent_head h
    by_cases hz : ch = '0' ∧ t = []
    · obtain ⟨h1, h2⟩ := hz
      subst h1
      subst h2
      decide
    · have hfirst : 1 ≤ charToDigit ch := by
        simp only [matchNumIdent] at h
        split at h
        · rename_i ht
          have hch : ch ≠ '0' := fun he => hz ⟨he, ht⟩
          simp only [isDigitChar, decide_eq_true_eq] at hd
          have hne : ch.toNat ≠ 48 := by
            intro he
            apply hch
            have e := Char.ofNat_toNat ch
            rw [he] at e
            exact e.symm.trans (by decide)
          simp only [charToDigit]
          omega
        · simp only [Bool.and_eq_true, decide_eq_true_eq] at h
          obtain ⟨⟨h1, _⟩, _⟩ := h
          simp only [charToDigit]
          omega
      have hall := (matchNumIdent_digits h).2
      rw [List.all_eq_true] at hall
      have hmem : ∀ x ∈ (t.map charToDigit).reverse ++ [charToDigit ch], x < 10 := by
        intro x hx
        rw [List.mem_append] at hx
        rcases hx with hx | hx
        · rw [List.mem_reverse, List.mem_map] at hx
          obtain ⟨cc, hcc, rfl⟩ := hx
          exact charToDigit_lt_ten (hall cc (List.mem_cons_of_mem _ hcc))
        · rw [List.mem_singleton] at hx
          subst hx
          exact charToDigit_lt_ten hd
      have hlast : ∀ hne : ((t.map charToDigit).reverse ++ [charToDigit ch]) ≠ [],
          ((t.map charToDigit).reverse ++ [charToDigit ch]).getLast hne ≠ 0 := by
        intro hne
        rw [List.getLast_append_of_ne_nil (by simp), List.getLast_singleton]
        omega
      have hrev : ((ch :: t).map charToDigit).reverse
          = (t.map charToDigit).reverse ++ [charToDigit ch] := by
        simp
      have hdig : Nat.digits 10 (digitsToNat (ch :: t))
          = (t.map charToDigit).reverse ++ [charToDigit ch] := by
        rw [digitsToNat_eq_ofDigits, hrev]
        exact Nat.digits_ofDigits 10 (by norm_num) _ hmem hlast
      have hn0 : digitsToNat (ch :: t) ≠ 0 := by
        intro h0
        rw [h0] at hdig
        simp [Nat.digits_zero] at hdig
      unfold natToString
      rw [if_neg hn0, digitsRev_eq_digits _ _ le_rfl, hdig]
      simp only [List.reverse_append, List.reverse_reverse, List.reverse_cons,
        List.reverse_nil, List.nil_append, List.singleton_append, List.map_cons]
      rw [natDigitChar_charToDigit hd, List.map_map]
      congr 1
      have hmap : t.map (natDigitChar ∘ charToDigit) = t.map id := by
        apply List.map_congr_left
        intro a haa
        exact natDigitChar_charToDigit (hall a (List.mem_cons_of_mem _ haa))
      rw [hmap, List.map_id]

theorem parseUint64_of_digits {l : List Char} (hm : matchNumIdent l = true)
    (hlt : digitsToNat l < 2 ^ 64) : parseUint64 l = some (digitsToNat l) := by
  obtain ⟨h1, h2⟩ := matchNumIdent_digits hm
  unfold parseUint64
  rw [if_pos ⟨h1, h2⟩, if_pos hlt]

theorem reFindSubmatch_head_digit {s a b c p bl : List Char}
    (h : reFindSubmatch s = some (a, b, c, p, bl)) :
    ∃ ch t, s = ch :: t ∧ isDigitChar ch = true := by
  obtain ⟨hshape, hA, _, _⟩ := reFindSubmatch_sound h
  cases ha : a with
  | nil =>
    rw [ha] at hA
    simp [matchNumIdent] at hA
  | cons ch t0 =>
    rw [ha, List.cons_append] at hshape
    exact ⟨ch, _, hshape, matchNumIdent_head (ha ▸ hA)⟩

/-- Claim C3 (amended): for every input s that matches the anchored SemVer
grammar — grammar-matching inputs start with a digit, so s has no leading v
— and whose three numeric components are within the unsigned 64-bit range,
TryParse succeeds and String of the parsed Version reproduces s exactly.
The range condition is forced by the code: a grammar-valid component beyond
the 64-bit range makes TryParse fail (see the counterexample). -/
theorem roundtrip :
    ∀ (s a b c p bl : List Char), reFindSubmatch s = some (a, b, c, p, bl) →
      digitsToNat a < 2 ^ 64 → digitsToNat b < 2 ^ 64 → digitsToNat c < 2 ^ 64 →
      TryParse s = (⟨digitsToNat a, digitsToNat b, digitsToNat c, p, bl⟩, none) ∧
      Version.string ⟨digitsToNat a, digitsToNat b, digitsToNat c, p, bl⟩ = s := by
  intro s a b c p bl h ha hb hc
  obtain ⟨hshape, hA, hB, hC⟩ := reFindSubmatch_sound h
  obtain ⟨ch, t, hst, hd⟩ := reFindSubmatch_head_digit h
  have hs0 : s ≠ [] := by
    rw [hst]
    simp
  have htrim : trimLeadingV s = s := by
    apply trimLeadingV_eq_self
    rw [hst]
    simp only [List.head?_cons, ne_eq, Option.some.injEq]
    intro he
    rw [he] at hd
    exact absurd hd (by decide)
  constructor
  · simp only [TryParse, if_neg hs0, htrim, parseMatched, h,
      parseUint64_of_digits hA ha, parseUint64_of_digits hB hb,
      parseUint64_of_digits hC hc]
  · unfold Version.string
    rw [natToString_digitsToNat hA, natToString_digitsToNat hB, natToString_digitsToNat hC,
      hshape]
    by_cases hp : p = [] <;> by_cases hb2 : bl = [] <;>
      simp [hp, hb2, List.append_assoc]

/-- Witness for C3: the round-trip at the concrete grammar-valid input
"1.2.3-beta+exp.sha.5114f85". -/
theorem roundtrip_witness :
    TryParse "1.2.3-beta+exp.sha.5114f85".toList =
      (⟨1, 2, 3, "beta".toList, "exp.sha.5114f85".toList⟩, none) ∧
    Version.string ⟨1, 2, 3, "beta".toList, "exp.sha.5114f85".toList⟩ =
      "1.2.3-beta+exp.sha.5114f85".toList := by
  have h := roundtrip "1.2.3-beta+exp.sha.5114f85".toList "1".toList "2".toList "3".toList
    "beta".toList "exp.sha.5114f85".toList (by decide) (by decide) (by decide) (by decide)
  exact h

/-- Counterexample to C3 as stated: the input with major component 2^64
matches the anchored grammar (syntactically valid, no leading v), yet
TryParse does not succeed on it, so its String round-trip fails. -/
theorem roundtrip_cex :
    reFindSubmatch "18446744073709551616.0.0".toList =
      some ("18446744073709551616".toList, "0".toList, "0".toList, [], []) ∧
    (TryParse "18446744073709551616.0.0".toList).2 ≠ none := by
  decide

/-- Claim C1 (code evidence): the input whose major component is 2^64
matches the anchored grammar, yet TryParse returns the joined strconv error
(modelled errNumeric) rather than ErrInvalidFormat, contradicting both the
specification and TryParse's own documentation, which admits only ErrEmpty
and ErrInvalidFormat. -/
theorem overflow_numeric_error :
    reFindSubmatch "18446744073709551616.0.0".toList =
      some ("18446744073709551616".toList, "0".toList, "0".toList, [], []) ∧
    TryParse "18446744073709551616.0.0".toList =
      (Version.zero, some VersionError.errNumeric) ∧
    VersionError.errNumeric ≠ VersionError.errInvalidFormat := by
  decide

example : TryParse "1.0.0".toList = (⟨1, 0, 0, [], []⟩, none) := by decide

example : TryParse "v2.1.3".toList = (⟨2, 1, 3, [], []⟩, none) := by decide

example : TryParse "1.2.3-beta+exp.sha.5114f85".toList =
    (⟨1, 2, 3, "beta".toList, "exp.sha.5114f85".toList⟩, none) := by decide

example : TryParse "1.2".toList = (Version.zero, some .errInvalidFormat) := by decide

example : TryParse [] = (Version.zero, some .errEmpty) := by decide

example : Version.string ⟨1, 2, 3, "alpha".toList, "exp.sha".toList⟩ =
    "1.2.3-alpha+exp.sha".toList := by decide
